import Mathlib

set_option maxHeartbeats 1000000
set_option maxRecDepth 20000

/- Shallow embedding of the steam-audio-codec crate (src/lib.rs and src/error.rs).

   Bytes are modelled as `Nat` (wire values are below 256); `u16`/`u32`
   arithmetic is `Nat` with an explicit `% 2 ^ w` where the source can wrap.
   A Rust panic is modelled by `Option.none` (for `SteamVoiceData.new`, whose
   `data.len() - 4` slice split aborts on buffers shorter than 4 bytes) and by
   `StepResult.panicked` (for the `&mut output_buffer[total..]` slice in the
   decode loop).  The external Opus decoder, an out-of-scope collaborator that
   the crate consumes behind `new` / `decode` / `reset_state`, is an abstract
   state machine `OpusApi` over a state type `D`. -/

inductive Channels where
  | Mono
  | Stereo
  deriving DecidableEq

inductive SteamAudioError where
  | CrcMismatch (expected actual : Nat)
  | InsufficientData
  | InsufficientOutputBuffer
  | UnknownPacketType (ty : Nat)
  | Opus (code : Nat)
  | NoSampleRate
  deriving DecidableEq

/- Little-endian interpretation of a list of bytes (u16::from_le_bytes and
   u32::from_le_bytes and u64::from_le_bytes all specialise this). -/
def fromLeBytes (l : List Nat) : Nat :=
  l.foldr (fun b acc => b + 256 * acc) 0

/- fn read_bytes<const N: usize>(data: &[u8]) (lib.rs lines 28-35). -/
def read_bytes (n : Nat) (data : List Nat) :
    Except SteamAudioError (List Nat × List Nat) :=
  if data.length < n then .error .InsufficientData
  else .ok (data.take n, data.drop n)

/- fn read_u16(data: &[u8]) (lib.rs lines 37-40). -/
def read_u16 (data : List Nat) : Except SteamAudioError (Nat × List Nat) :=
  match read_bytes 2 data with
  | .error e => .error e
  | .ok (bytes, rest) => .ok (fromLeBytes bytes, rest)

inductive PacketType where
  | Silence
  | OpusPlc
  | SampleRate
  deriving DecidableEq

/- impl TryFrom<u8> for PacketType (lib.rs lines 15-26). -/
def PacketType.tryFrom (value : Nat) : Except SteamAudioError PacketType :=
  if value = 0 then .ok .Silence
  else if value = 6 then .ok .OpusPlc
  else if value = 11 then .ok .SampleRate
  else .error (.UnknownPacketType value)

structure SteamOpusData where
  data : List Nat
  deriving DecidableEq

inductive Packet where
  | Silence (count : Nat)
  | OpusPlc (opus : SteamOpusData)
  | SampleRate (rate : Nat)
  deriving DecidableEq

/- Packet::read (lib.rs lines 53-71). -/
def Packet.read (data : List Nat) : Except SteamAudioError (Packet × List Nat) :=
  match data with
  | [] => .error .InsufficientData
  | b :: rest =>
    match PacketType.tryFrom b with
    | .error e => .error e
    | .ok ty =>
      match read_u16 rest with
      | .error e => .error e
      | .ok (next, data) =>
        match ty with
        | .Silence => .ok (.Silence next, data)
        | .OpusPlc =>
          if data.length < next then .error .InsufficientData
          else .ok (.OpusPlc ⟨data.take next⟩, data.drop next)
        | .SampleRate => .ok (.SampleRate next, data)

/- One round of the inner `for _ in 0..8` loop of crc32b (lib.rs lines 142-145):
   mask = -((crc & 1) as i32) as u32, i.e. (2^32 - (crc & 1)) % 2^32. -/
def crcStep (crc : Nat) : Nat :=
  let mask := (2 ^ 32 - Nat.land crc 1) % 2 ^ 32
  Nat.xor (crc >>> 1) (Nat.land 0xEDB88320 mask)

/- The outer byte loop of crc32b (lib.rs lines 140-146). -/
def crc32bGo (crc : Nat) : List Nat → Nat
  | [] => crc
  | b :: rest => crc32bGo (crcStep^[8] (Nat.xor crc b)) rest

/- fn crc32b(data: &[u8]) (lib.rs lines 138-148); the final `!crc` is a
   32-bit complement, i.e. xor with 0xFFFFFFFF. -/
def crc32b (data : List Nat) : Nat :=
  Nat.xor (crc32bGo 0xFFFFFFFF data) 0xFFFFFFFF

structure SteamVoiceData where
  steam_id : Nat
  packet_data : List Nat
  deriving DecidableEq

/- SteamVoiceData::new (lib.rs lines 81-98).  The Rust source starts with
   `data.split_at(data.len() - 4)`: for buffers shorter than 4 bytes the
   usize subtraction underflows (and the split index is out of bounds), so
   the call panics; this is modelled by `none`. -/
def SteamVoiceData.new (data : List Nat) :
    Option (Except SteamAudioError SteamVoiceData) :=
  if data.length < 4 then none
  else
    let body := data.take (data.length - 4)
    let crc_data := data.drop (data.length - 4)
    let expected_crc := fromLeBytes crc_data
    let calculated_crc := crc32b body
    if expected_crc ≠ calculated_crc then
      some (.error (.CrcMismatch expected_crc calculated_crc))
    else
      match read_bytes 8 body with
      | .error e => some (.error e)
      | .ok (steam_id_bytes, rest) => some (.ok ⟨fromLeBytes steam_id_bytes, rest⟩)

/- Iterator::next for SteamPacketIterator (lib.rs lines 123-135).  The state
   is the remaining byte slice; note that in the `Err` arm the source does
   NOT advance `self.data`, so the state is returned unchanged. -/
def SteamPacketIterator.next (data : List Nat) :
    Option (Except SteamAudioError Packet × List Nat) :=
  if data.isEmpty then none
  else
    match Packet.read data with
    | .ok (packet, rest) => some (.ok packet, rest)
    | .error e => some (.error e, data)

/- State of the iterator after up to `n` calls to `next`; `none` means that
   within those calls `next` returned `None` (the iterator was exhausted). -/
def pullN : Nat → List Nat → Option (List Nat)
  | 0, st => some st
  | n + 1, st =>
    match SteamPacketIterator.next st with
    | none => none
    | some (_, st1) => pullN n st1

/- Length accounting for read_u16: on success exactly two bytes are consumed. -/
theorem read_u16_length {l r : List Nat} {v : Nat} (h : read_u16 l = .ok (v, r)) :
    r.length + 2 = l.length := by
  unfold read_u16 read_bytes at h
  by_cases hl : l.length < 2
  · simp [hl] at h
  · simp only [if_neg hl, Except.ok.injEq, Prod.mk.injEq] at h
    obtain ⟨-, h2⟩ := h
    subst h2
    simp only [List.length_drop]
    omega

/- Length accounting for Packet.read: on success at least three bytes are
   consumed, so the remainder is strictly shorter. -/
theorem Packet.read_length {data rest : List Nat} {p : Packet}
    (h : Packet.read data = .ok (p, rest)) : rest.length < data.length := by
  cases data with
  | nil => exact absurd h (by simp [Packet.read])
  | cons b tail =>
    unfold Packet.read at h
    cases hty : PacketType.tryFrom b with
    | error e =>
      simp only [hty] at h
      exact absurd h (by simp)
    | ok ty =>
      simp only [hty] at h
      cases hu : read_u16 tail with
      | error e =>
        simp only [hu] at h
        exact absurd h (by simp)
      | ok vr =>
        obtain ⟨next, data2⟩ := vr
        simp only [hu] at h
        have hlen := read_u16_length hu
        cases ty with
        | Silence =>
          simp only [Except.ok.injEq, Prod.mk.injEq] at h
          obtain ⟨-, h2⟩ := h
          subst h2
          simp only [List.length_cons]
          omega
        | OpusPlc =>
          by_cases hlt : data2.length < next
          · rw [if_pos hlt] at h
            exact absurd h (by simp)
          · rw [if_neg hlt] at h
            simp only [Except.ok.injEq, Prod.mk.injEq] at h
            obtain ⟨-, h2⟩ := h
            subst h2
            simp only [List.length_drop, List.length_cons]
            omega
        | SampleRate =>
          simp only [Except.ok.injEq, Prod.mk.injEq] at h
          obtain ⟨-, h2⟩ := h
          subst h2
          simp only [List.length_cons]
          omega

/- The abstract Opus decoder consumed by the driver (spec section 6):
   new(sample_rate, channels), decode(input, output, fec=false) writing the
   output slice and returning a sample count, and reset_state().  `D` is the
   decoder's internal state; errors are opaque codes. -/
structure OpusApi (D : Type) where
  new : Nat → Channels → Except Nat D
  decode : D → List Nat → List Int → Except Nat (D × List Int × Nat)
  reset : D → Except Nat D

/- struct SteamVoiceDecoder (lib.rs lines 150-155). -/
structure SteamVoiceDecoder (D : Type) where
  decoder : Option D
  sample_rate : Nat
  seq : Nat
  deriving DecidableEq

/- SteamVoiceDecoder::new == Default::default() (lib.rs lines 170-172). -/
def SteamVoiceDecoder.new {D : Type} : SteamVoiceDecoder D := ⟨none, 0, 0⟩

/- The `for _ in 0..lost` PLC loop of decode_opus (lib.rs lines 229-235).
   Returns the decoder state, buffer, running total, and the error if the
   loop exited early; state changes made before the error persist, matching
   the &mut self semantics of the source. -/
def plcLoop {D : Type} (api : OpusApi D) (d : D) (lost : Nat) (out : List Int)
    (total : Nat) : D × List Int × Nat × Option SteamAudioError :=
  match lost with
  | 0 => (d, out, total, none)
  | n + 1 =>
    match api.decode d [] (out.drop total) with
    | .error e => (d, out, total, some (.Opus e))
    | .ok (d1, written, count) =>
      let out1 := out.take total ++ written
      let total1 := total + count
      if out1.length ≤ total1 then (d1, out1, total1, some .InsufficientOutputBuffer)
      else plcLoop api d1 n out1 total1

/- The `if seq < self.seq { reset } else { plc }` branch of decode_opus
   (lib.rs lines 225-236); the Nat subtraction `seq - sq` is evaluated only
   in the branch where `sq ≤ seq`, exactly as in the source. -/
def seqBranch {D : Type} (api : OpusApi D) (d : D) (sq seq : Nat) (out : List Int)
    (total : Nat) : D × List Int × Nat × Option SteamAudioError :=
  if seq < sq then
    match api.reset d with
    | .error e => (d, out, total, some (.Opus e))
    | .ok d1 => (d1, out, total, none)
  else
    plcLoop api d (seq - sq) out total

structure OpusLoopResult (D : Type) where
  dec : D
  seq : Nat
  out : List Int
  total : Nat
  err : Option SteamAudioError
  deriving DecidableEq

/- The `while data.len() > 2` loop of decode_opus (lib.rs lines 214-251).
   `self.seq = seq + 1` is a u16 store, modelled as `% 65536`. -/
def decodeOpusLoop {D : Type} (api : OpusApi D) (d : D) (sq : Nat) (data : List Nat)
    (out : List Int) (total : Nat) : OpusLoopResult D :=
  if hgt : 2 < data.length then
    match hr1 : read_u16 data with
    | .error e => ⟨d, sq, out, total, some e⟩
    | .ok (len, data1) =>
      if len = 65535 then
        match api.reset d with
        | .error e => ⟨d, sq, out, total, some (.Opus e)⟩
        | .ok d1 => decodeOpusLoop api d1 0 data1 out total
      else
        match hr2 : read_u16 data1 with
        | .error e => ⟨d, sq, out, total, some e⟩
        | .ok (seq, data2) =>
          match seqBranch api d sq seq out total with
          | (d1, out1, total1, some e) => ⟨d1, sq, out1, total1, some e⟩
          | (d1, out1, total1, none) =>
            let sq1 := (seq + 1) % 65536
            if data2.length < len then ⟨d1, sq1, out1, total1, some .InsufficientData⟩
            else
              match api.decode d1 (data2.take len) (out1.drop total1) with
              | .error e => ⟨d1, sq1, out1, total1, some (.Opus e)⟩
              | .ok (d2, written, count) =>
                let out2 := out1.take total1 ++ written
                let total2 := total1 + count
                if out2.length ≤ total2 then
                  ⟨d2, sq1, out2, total2, some .InsufficientOutputBuffer⟩
                else decodeOpusLoop api d2 sq1 (data2.drop len) out2 total2
  else ⟨d, sq, out, total, none⟩
termination_by data.length
decreasing_by
· have h1 := read_u16_length hr1
  omega
· have h1 := read_u16_length hr1
  have h2 := read_u16_length hr2
  simp only [List.length_drop]
  omega

/- SteamVoiceDecoder::decode_opus (lib.rs lines 204-254): fails with
   NoSampleRate when no decoder exists, otherwise runs the frame loop
   starting from total = 0.  Returns the updated driver state, the buffer,
   the local total, and the error (if any). -/
def decode_opus {D : Type} (api : OpusApi D) (st : SteamVoiceDecoder D)
    (data : List Nat) (output_buffer : List Int) :
    SteamVoiceDecoder D × List Int × Nat × Option SteamAudioError :=
  match st.decoder with
  | none => (st, output_buffer, 0, some .NoSampleRate)
  | some d =>
    let r := decodeOpusLoop api d st.seq data output_buffer 0
    ({ st with decoder := some r.dec, seq := r.seq }, r.out, r.total, r.err)

inductive StepResult (D : Type) where
  | cont (st : SteamVoiceDecoder D) (out : List Int) (total : Nat)
  | fail (st : SteamVoiceDecoder D) (out : List Int) (e : SteamAudioError)
  | panicked (st : SteamVoiceDecoder D) (out : List Int)
  deriving DecidableEq

def StepResult.state {D : Type} : StepResult D → SteamVoiceDecoder D
  | .cont st _ _ => st
  | .fail st _ _ => st
  | .panicked st _ => st

/- One iteration of the `for packet in voice_data.packets()` match in
   SteamVoiceDecoder::decode (lib.rs lines 182-199).  The OpusPlc arm slices
   `&mut output_buffer[total..]`, which panics when total exceeds the buffer
   length (reachable because the Silence arm does not check the bound). -/
def decodeStep {D : Type} (api : OpusApi D) (st : SteamVoiceDecoder D) (p : Packet)
    (out : List Int) (total : Nat) : StepResult D :=
  match p with
  | .SampleRate rate =>
    if st.sample_rate ≠ rate then
      match api.new rate Channels.Mono with
      | .error e => .fail st out (.Opus e)
      | .ok d => .cont { st with decoder := some d, sample_rate := rate } out total
    else .cont st out total
  | .OpusPlc opus =>
    if out.length < total then .panicked st out
    else
      match decode_opus api st opus.data (out.drop total) with
      | (st1, written, _, some e) => .fail st1 (out.take total ++ written) e
      | (st1, written, count, none) =>
        let out1 := out.take total ++ written
        let total1 := total + count
        if out.length ≤ total1 then .fail st1 out1 .InsufficientOutputBuffer
        else .cont st1 out1 total1
  | .Silence silence => .cont st out (total + silence)

inductive DecodeOutcome where
  | ok (total : Nat)
  | err (e : SteamAudioError)
  | panicked
  deriving DecidableEq

/- The packet loop of SteamVoiceDecoder::decode (lib.rs lines 179-201),
   driven by the packet iterator; a parse error propagates via `?`. -/
def decodeLoop {D : Type} (api : OpusApi D) (st : SteamVoiceDecoder D)
    (data : List Nat) (out : List Int) (total : Nat) :
    SteamVoiceDecoder D × List Int × DecodeOutcome :=
  if data.isEmpty then (st, out, .ok total)
  else
    match hp : Packet.read data with
    | .error e => (st, out, .err e)
    | .ok (p, rest) =>
      match decodeStep api st p out total with
      | .cont st1 out1 total1 => decodeLoop api st1 rest out1 total1
      | .fail st1 out1 e => (st1, out1, .err e)
      | .panicked st1 out1 => (st1, out1, .panicked)
termination_by data.length
decreasing_by
exact Packet.read_length hp

/- SteamVoiceDecoder::decode (lib.rs lines 174-202). -/
def SteamVoiceDecoder.decode {D : Type} (api : OpusApi D) (st : SteamVoiceDecoder D)
    (voice_data : SteamVoiceData) (output_buffer : List Int) :
    SteamVoiceDecoder D × List Int × DecodeOutcome :=
  decodeLoop api st voice_data.packet_data output_buffer 0

deriving instance DecidableEq for Except

/- Little-endian serializers used to build concrete test payloads. -/
def u16le (n : Nat) : List Nat := [n % 256, n / 256]

def u32le (n : Nat) : List Nat :=
  [n % 256, n / 256 % 256, n / 2 ^ 16 % 256, n / 2 ^ 24 % 256]

/- The trailing 4 bytes of a buffer decode to the CRC-32 of the rest. -/
def crcOk (data : List Nat) : Prop :=
  fromLeBytes (data.drop (data.length - 4)) = crc32b (data.take (data.length - 4))

instance (data : List Nat) : Decidable (crcOk data) := by
  unfold crcOk
  infer_instance

/- Spec section 3 invariant: the Opus decoder exists iff sample_rate is nonzero. -/
def InvRS {D : Type} (st : SteamVoiceDecoder D) : Prop :=
  st.decoder.isSome ↔ st.sample_rate ≠ 0

instance {D : Type} (st : SteamVoiceDecoder D) : Decidable (InvRS st) := by
  unfold InvRS
  infer_instance

/- A trivial Opus decoder instance: construction always succeeds, decoding
   writes nothing and reports zero samples. -/
def unitApi : OpusApi Unit where
  new := fun _ _ => .ok ()
  decode := fun _ _ out => .ok ((), out, 0)
  reset := fun _ => .ok ()

/- An instrumented Opus decoder instance: the state counts empty-input
   (PLC) decode invocations in the first component and reset_state calls in
   the second; decoding writes nothing and reports zero samples. -/
def countApi : OpusApi (Nat × Nat) where
  new := fun _ _ => .ok (0, 0)
  decode := fun d inp out => .ok ((if inp.isEmpty then (d.1 + 1, d.2) else d), out, 0)
  reset := fun d => .ok (d.1, d.2 + 1)

/- An Opus decoder instance matching libopus on construction: a sample rate
   of 0 is rejected (opus accepts only 8/12/16/24/48 kHz). -/
def validApi : OpusApi Unit where
  new := fun rate _ => if rate = 0 then .error 0 else .ok ()
  decode := fun _ _ out => .ok ((), out, 0)
  reset := fun _ => .ok ()

/-- C2 (code bug witness): evaluating `SteamVoiceData.new` on buffers shorter
than 4 bytes yields the panic marker `none`: the source computes
`data.split_at(data.len() - 4)`, whose usize subtraction underflows, so the
parser aborts instead of returning an error as the claim (and the spec's
"the parser never panics on short or malformed input") requires. -/
theorem C2_short_buffer_panics :
    SteamVoiceData.new [] = none ∧ SteamVoiceData.new [0, 0, 0] = none :=
  ⟨rfl, rfl⟩

/-- C8: crc32b implements CRC-32/ISO-HDLC; it maps the empty byte sequence to
0x00000000 and the ASCII bytes of "123456789" to 0xCBF43926 (the standard
check value for the reflected polynomial 0xEDB88320 with initial value
0xFFFFFFFF and final XOR 0xFFFFFFFF, which appear literally in crc32b). -/
theorem C8_crc_check_values :
    crc32b [] = 0 ∧ crc32b [49, 50, 51, 52, 53, 54, 55, 56, 57] = 0xCBF43926 := by
  constructor
  · decide
  · decide

/-- C9: processing a Silence(count) sub-packet returns the output buffer
unchanged and advances the running sample total by exactly count, for every
decoder state, every count, every buffer and every cursor position. -/
theorem C9_silence_leaves_buffer {D : Type} (api : OpusApi D)
    (st : SteamVoiceDecoder D) (count : Nat) (out : List Int) (total : Nat) :
    decodeStep api st (.Silence count) out total = .cont st out (total + count) :=
  rfl

/-- C4 counterexample: processing SampleRate(0) in the Fresh state (decoder
absent, sample_rate = 0) constructs no decoder at all — the source's guard
`self.sample_rate != rate` is false for rate 0 — contradicting the claim that
for every rate r a decoder is constructed; with an Opus constructor that
succeeds on every rate, the result keeps `decoder = none` instead of
becoming `some`. -/
theorem C4_counterexample :
    decodeStep unitApi (⟨none, 0, 0⟩ : SteamVoiceDecoder Unit) (.SampleRate 0) [] 0 =
      .cont ⟨none, 0, 0⟩ [] 0
    ∧ decodeStep unitApi (⟨none, 0, 0⟩ : SteamVoiceDecoder Unit) (.SampleRate 0) [] 0 ≠
      .cont ⟨some (), 0, 0⟩ [] 0 := by
  constructor
  · rfl
  · decide

/-- C4 (amended): for every nonzero rate r, processing SampleRate(r) in the
Fresh state (decoder absent, sample_rate = 0) with an Opus constructor that
succeeds constructs the decoder at r Hz mono and sets sample_rate to r; the
seq field is not modified. -/
theorem C4_samplerate_fresh {D : Type} (api : OpusApi D) (s rate : Nat) (d : D)
    (out : List Int) (total : Nat) (hr : rate ≠ 0)
    (hnew : api.new rate Channels.Mono = .ok d) :
    decodeStep api (⟨none, 0, s⟩ : SteamVoiceDecoder D) (.SampleRate rate) out total =
      .cont ⟨some d, rate, s⟩ out total := by
  have h0 : (0 : Nat) ≠ rate := fun hc => hr hc.symm
  simp [decodeStep, h0, hnew]

/-- C4 witness: instantiating the amended claim at rate 24000 from the Fresh
state with seq = 7. -/
theorem C4_samplerate_fresh_witness :
    (24000 : Nat) ≠ 0
    ∧ unitApi.new 24000 Channels.Mono = .ok ()
    ∧ decodeStep unitApi (⟨none, 0, 7⟩ : SteamVoiceDecoder Unit) (.SampleRate 24000) [] 0 =
        .cont ⟨some (), 24000, 7⟩ [] 0 :=
  ⟨by decide, rfl, C4_samplerate_fresh unitApi 7 24000 () [] 0 (by decide) rfl⟩

/-- C3 counterexample: a 4-byte buffer (shorter than 12) whose trailing CRC
does not match fails with CrcMismatch, not InsufficientData — the source
checks the CRC before ever touching the sender id, and has no 12-byte
length guard at all. -/
theorem C3_counterexample :
    List.length ([1, 0, 0, 0] : List Nat) < 12
    ∧ SteamVoiceData.new [1, 0, 0, 0] = some (.error (.CrcMismatch 1 0))
    ∧ SteamVoiceData.new [1, 0, 0, 0] ≠ some (.error .InsufficientData) :=
  ⟨by decide, by decide, by decide⟩

/-- C3 (amended): buffers shorter than 4 bytes make SteamVoiceData.new panic;
buffers of length at least 4 whose trailing CRC does not match fail with
CrcMismatch; buffers of length 4 to 11 whose CRC does match fail with
InsufficientData (the sender id read runs out of bytes); and every buffer of
length at least 12 whose trailing CRC matches is accepted. -/
theorem C3_new_by_length (data : List Nat) :
    (data.length < 4 → SteamVoiceData.new data = none)
    ∧ (4 ≤ data.length → ¬ crcOk data →
        SteamVoiceData.new data =
          some (.error (.CrcMismatch (fromLeBytes (data.drop (data.length - 4)))
            (crc32b (data.take (data.length - 4))))))
    ∧ (4 ≤ data.length → data.length < 12 → crcOk data →
        SteamVoiceData.new data = some (.error .InsufficientData))
    ∧ (12 ≤ data.length → crcOk data →
        SteamVoiceData.new data =
          some (.ok ⟨fromLeBytes ((data.take (data.length - 4)).take 8),
            (data.take (data.length - 4)).drop 8⟩)) := by
  refine ⟨fun h => ?_, fun h4 hnc => ?_, fun h4 h12 hc => ?_, fun h12 hc => ?_⟩
  · simp [SteamVoiceData.new, h]
  · have hlt : ¬ data.length < 4 := by omega
    unfold crcOk at hnc
    simp [SteamVoiceData.new, hlt, hnc]
  · have hlt : ¬ data.length < 4 := by omega
    unfold crcOk at hc
    have h8 : data.length - 4 < 8 := by omega
    simp [SteamVoiceData.new, read_bytes, hlt, hc, h8]
  · have hlt : ¬ data.length < 4 := by omega
    unfold crcOk at hc
    have h8 : ¬ data.length - 4 < 8 := by omega
    simp [SteamVoiceData.new, read_bytes, hlt, hc, h8]

/- Test payload, spec section 8 scenario 2: sender id bytes and a matching
   CRC with an empty sub-packet stream. -/
def emptyStreamPayload : List Nat :=
  List.replicate 8 0 ++ u32le (crc32b (List.replicate 8 0))

/-- C3 witness: the 12-byte payload with a matching CRC and an empty
sub-packet stream is accepted. -/
theorem C3_new_by_length_witness :
    12 ≤ emptyStreamPayload.length
    ∧ crcOk emptyStreamPayload
    ∧ SteamVoiceData.new emptyStreamPayload =
        some (.ok ⟨fromLeBytes ((emptyStreamPayload.take (emptyStreamPayload.length - 4)).take 8),
          (emptyStreamPayload.take (emptyStreamPayload.length - 4)).drop 8⟩) :=
  ⟨by decide, by decide, (C3_new_by_length emptyStreamPayload).2.2.2 (by decide) (by decide)⟩

/- Unfolding lemmas for the packet loop (decodeLoop is defined by
   well-founded recursion, so concrete runs are evaluated through these). -/
theorem decodeLoop_nil {D : Type} (api : OpusApi D) (st : SteamVoiceDecoder D)
    (out : List Int) (total : Nat) :
    decodeLoop api st [] out total = (st, out, .ok total) := by
  rw [decodeLoop.eq_def]
  simp

theorem decodeLoop_cons {D : Type} (api : OpusApi D) (st : SteamVoiceDecoder D)
    (data : List Nat) (p : Packet) (rest : List Nat)
    (h : Packet.read data = .ok (p, rest)) (out : List Int) (total : Nat) :
    decodeLoop api st data out total =
      match decodeStep api st p out total with
      | .cont st1 out1 total1 => decodeLoop api st1 rest out1 total1
      | .fail st1 out1 e => (st1, out1, .err e)
      | .panicked st1 out1 => (st1, out1, .panicked) := by
  have hne : data.isEmpty = false := by
    cases data
    · simp [Packet.read] at h
    · simp
  rw [decodeLoop.eq_def]
  simp only [hne, Bool.false_eq_true, if_false]
  split
  · next e heq =>
    rw [h] at heq
    exact absurd heq (by simp)
  · next p1 rest1 heq =>
    rw [h] at heq
    simp only [Except.ok.injEq, Prod.mk.injEq] at heq
    obtain ⟨h1, h2⟩ := heq
    subst h1
    subst h2
    rfl

theorem decodeLoop_parse_error {D : Type} (api : OpusApi D) (st : SteamVoiceDecoder D)
    (data : List Nat) (e : SteamAudioError)
    (h : Packet.read data = .error e) (out : List Int) (total : Nat)
    (hne : data.isEmpty = false) :
    decodeLoop api st data out total = (st, out, .err e) := by
  rw [decodeLoop.eq_def]
  simp only [hne, Bool.false_eq_true, if_false]
  split
  · next e1 heq =>
    rw [h] at heq
    simp only [Except.error.injEq] at heq
    subst heq
    rfl
  · next p1 rest1 heq =>
    rw [h] at heq
    exact absurd heq (by simp)

/- Test payload, spec section 8 scenario 3: a single Silence(2) sub-packet
   with sender id 0 and a matching CRC. -/
def silenceOnlyBody : List Nat := List.replicate 8 0 ++ [0, 2, 0]

def silenceOnlyPayload : List Nat := silenceOnlyBody ++ u32le (crc32b silenceOnlyBody)

/-- C1 counterexample: a genuinely parsed payload whose only sub-packet is
Silence(2), decoded into a buffer of length 1, makes decode return Ok(2) —
the running total (2) reaches and exceeds the buffer length (1) during the
call, yet no InsufficientOutputBuffer is returned and the result exceeds the
buffer length, because the Silence arm of the source performs no bound
check. -/
theorem C1_counterexample :
    SteamVoiceData.new silenceOnlyPayload = some (.ok ⟨0, [0, 2, 0]⟩)
    ∧ SteamVoiceDecoder.decode unitApi SteamVoiceDecoder.new ⟨0, [0, 2, 0]⟩ [0] =
        (SteamVoiceDecoder.new, [0], .ok 2)
    ∧ ¬ (2 ≤ List.length ([0] : List Int)) := by
  refine ⟨by decide, ?_, by decide⟩
  show decodeLoop unitApi SteamVoiceDecoder.new [0, 2, 0] [0] 0 =
    (SteamVoiceDecoder.new, [0], .ok 2)
  rw [decodeLoop_cons unitApi SteamVoiceDecoder.new [0, 2, 0] (.Silence 2) [] (by decide)]
  show decodeLoop unitApi SteamVoiceDecoder.new [] [0] (0 + 2) = _
  rw [decodeLoop_nil]

/-- C1 (amended): the bound on the running total is enforced only for sample
production from OpusPlc sub-packets — whenever an OpusPlc step continues
normally the new total is strictly below the output buffer length (reaching
or exceeding it yields InsufficientOutputBuffer instead) — while a Silence
sub-packet advances the total with no check at all, so a payload whose only
sample production comes from Silence sub-packets can return a total
exceeding the buffer length. -/
theorem C1_opus_total_bounded {D : Type} (api : OpusApi D) (st st1 : SteamVoiceDecoder D)
    (opus : SteamOpusData) (out out1 : List Int) (total total1 silence : Nat)
    (h : decodeStep api st (.OpusPlc opus) out total = .cont st1 out1 total1) :
    total1 < out.length
    ∧ decodeStep api st (.Silence silence) out total = .cont st out (total + silence) := by
  refine ⟨?_, rfl⟩
  simp only [decodeStep] at h
  split at h
  · exact absurd h (by simp)
  · split at h
    · exact absurd h (by simp)
    · split at h
      · exact absurd h (by simp)
      · next hle =>
        simp only [StepResult.cont.injEq] at h
        obtain ⟨-, -, h3⟩ := h
        omega
/-- C1 witness: an OpusPlc step that continues (empty opus sub-stream, trivial
decoder) keeps the total below the buffer length, and a Silence step advances
the total unconditionally. -/
theorem C1_opus_total_bounded_witness :
    decodeStep unitApi (⟨some (), 24000, 0⟩ : SteamVoiceDecoder Unit) (.OpusPlc ⟨[]⟩) [0, 0] 0 =
      .cont ⟨some (), 24000, 0⟩ [0, 0] 0
    ∧ (0 < List.length ([0, 0] : List Int)
       ∧ decodeStep unitApi (⟨some (), 24000, 0⟩ : SteamVoiceDecoder Unit) (.Silence 5) [0, 0] 0 =
           .cont ⟨some (), 24000, 0⟩ [0, 0] (0 + 5)) := by
  have hstep : decodeStep unitApi (⟨some (), 24000, 0⟩ : SteamVoiceDecoder Unit)
      (.OpusPlc ⟨[]⟩) [0, 0] 0 = .cont ⟨some (), 24000, 0⟩ [0, 0] 0 := by
    simp [decodeStep, decode_opus, decodeOpusLoop, unitApi]
  exact ⟨hstep,
    C1_opus_total_bounded unitApi ⟨some (), 24000, 0⟩ ⟨some (), 24000, 0⟩ ⟨[]⟩ [0, 0] [0, 0]
      0 0 5 hstep⟩

/- decode_opus keeps the decoder presence and the sample rate unchanged (it
   only ever rewrites the decoder contents and seq). -/
theorem decode_opus_state {D : Type} (api : OpusApi D) (st : SteamVoiceDecoder D)
    (data : List Nat) (ob : List Int) :
    (decode_opus api st data ob).1.decoder.isSome = st.decoder.isSome
    ∧ (decode_opus api st data ob).1.sample_rate = st.sample_rate := by
  unfold decode_opus
  cases hd : st.decoder with
  | none => simp [hd]
  | some d => simp [hd]

/- The state reached by an OpusPlc step has the same decoder presence and
   sample rate as the starting state. -/
theorem decodeStep_opus_state {D : Type} (api : OpusApi D) (st : SteamVoiceDecoder D)
    (opus : SteamOpusData) (out : List Int) (total : Nat) :
    (decodeStep api st (.OpusPlc opus) out total).state.decoder.isSome = st.decoder.isSome
    ∧ (decodeStep api st (.OpusPlc opus) out total).state.sample_rate = st.sample_rate := by
  have hds := decode_opus_state api st opus.data (out.drop total)
  simp only [decodeStep]
  split
  · simp [StepResult.state]
  · split
    · next st1 written cnt e hdo =>
      rw [hdo] at hds
      simpa [StepResult.state] using hds
    · next st1 written cnt hdo =>
      rw [hdo] at hds
      split
      · simpa [StepResult.state] using hds
      · simpa [StepResult.state] using hds

/- A single packet step preserves the decoder-iff-sample-rate invariant,
   provided the Opus constructor rejects a sample rate of zero. -/
theorem decodeStep_inv {D : Type} (api : OpusApi D)
    (h0 : ∀ (ch : Channels) (d : D), api.new 0 ch ≠ .ok d)
    (st : SteamVoiceDecoder D) (p : Packet) (out : List Int) (total : Nat)
    (h : InvRS st) : InvRS (decodeStep api st p out total).state := by
  cases p with
  | SampleRate rate =>
    by_cases hr : st.sample_rate = rate
    · simpa [decodeStep, hr, StepResult.state] using h
    · cases hn : api.new rate Channels.Mono with
      | error e => simpa [decodeStep, hr, hn, StepResult.state] using h
      | ok d =>
        have hrate : rate ≠ 0 := by
          intro h0r
          subst h0r
          exact h0 Channels.Mono d hn
        simp [decodeStep, hr, hn, StepResult.state, InvRS, hrate]
  | OpusPlc opus =>
    obtain ⟨h1, h2⟩ := decodeStep_opus_state api st opus out total
    unfold InvRS at h ⊢
    rw [h1, h2]
    exact h
  | Silence c => exact h

/- The packet loop preserves the invariant on every path (success, error,
   panic), carrying the state through each step. -/
theorem decodeLoop_inv {D : Type} (api : OpusApi D)
    (h0 : ∀ (ch : Channels) (d : D), api.new 0 ch ≠ .ok d)
    (data : List Nat) (st : SteamVoiceDecoder D) (out : List Int) (total : Nat)
    (h : InvRS st) : InvRS (decodeLoop api st data out total).1 := by
  by_cases hne : data.isEmpty
  · have hdata : data = [] := by
      cases data
      · rfl
      · simp at hne
    subst hdata
    rw [decodeLoop_nil]
    exact h
  · cases hp : Packet.read data with
    | error e =>
      rw [decodeLoop_parse_error api st data e hp out total (by simpa using hne)]
      exact h
    | ok pr =>
      obtain ⟨p, rest⟩ := pr
      rw [decodeLoop_cons api st data p rest hp out total]
      have hstep := decodeStep_inv api h0 st p out total h
      cases hd : decodeStep api st p out total with
      | cont st1 out1 total1 =>
        rw [hd] at hstep
        exact decodeLoop_inv api h0 rest st1 out1 total1 hstep
      | fail st1 out1 e =>
        rw [hd] at hstep
        exact hstep
      | panicked st1 out1 =>
        rw [hd] at hstep
        exact hstep
termination_by data.length
decreasing_by
exact Packet.read_length hp

/- A step can change the sample rate only by the SampleRate arm, which also
   installs the freshly constructed decoder. -/
theorem decodeStep_rate_change {D : Type} (api : OpusApi D) (st : SteamVoiceDecoder D)
    (p : Packet) (out : List Int) (total : Nat)
    (hch : (decodeStep api st p out total).state.sample_rate ≠ st.sample_rate) :
    ∃ rate d, p = .SampleRate rate
      ∧ (decodeStep api st p out total).state.decoder = some d
      ∧ api.new rate Channels.Mono = .ok d
      ∧ (decodeStep api st p out total).state.sample_rate = rate := by
  cases p with
  | Silence c => exact absurd rfl hch
  | OpusPlc opus =>
    exact absurd (decodeStep_opus_state api st opus out total).2 hch
  | SampleRate rate =>
    by_cases hr : st.sample_rate = rate
    · exact absurd (by simp [decodeStep, hr, StepResult.state]) hch
    · cases hn : api.new rate Channels.Mono with
      | error e => exact absurd (by simp [decodeStep, hr, hn, StepResult.state]) hch
      | ok d =>
        refine ⟨rate, d, rfl, ?_, hn, ?_⟩
        · simp [decodeStep, hr, hn, StepResult.state]
        · simp [decodeStep, hr, hn, StepResult.state]

/-- C5: assuming the Opus constructor rejects a sample rate of 0 (as libopus
does), the invariant "the decoder handle is present iff sample_rate is
nonzero" holds of a freshly constructed SteamVoiceDecoder, is preserved by
every decode call on success, error and panic paths alike, and is preserved
by every individual packet step; moreover the only step that changes
sample_rate is a SampleRate packet, which installs the decoder freshly
constructed at exactly that rate. -/
theorem C5_decoder_rate_invariant {D : Type} (api : OpusApi D)
    (h0 : ∀ (ch : Channels) (d : D), api.new 0 ch ≠ .ok d)
    (st st1 : SteamVoiceDecoder D) (vd : SteamVoiceData) (out o : List Int)
    (t : Nat) (p : Packet) (h : InvRS st)
    (hch : (decodeStep api st1 p o t).state.sample_rate ≠ st1.sample_rate) :
    InvRS (SteamVoiceDecoder.new : SteamVoiceDecoder D)
    ∧ InvRS (SteamVoiceDecoder.decode api st vd out).1
    ∧ (InvRS st1 → InvRS (decodeStep api st1 p o t).state)
    ∧ ∃ rate d, p = .SampleRate rate
        ∧ (decodeStep api st1 p o t).state.decoder = some d
        ∧ api.new rate Channels.Mono = .ok d
        ∧ (decodeStep api st1 p o t).state.sample_rate = rate :=
  ⟨by simp [InvRS, SteamVoiceDecoder.new],
   decodeLoop_inv api h0 vd.packet_data st out 0 h,
   fun h1 => decodeStep_inv api h0 st1 p o t h1,
   decodeStep_rate_change api st1 p o t hch⟩

/-- C5 witness: the invariant at a concrete configured driver and a concrete
SampleRate(24000) step from the fresh state, under the libopus-like
constructor that rejects rate 0. -/
theorem C5_decoder_rate_invariant_witness :
    InvRS (SteamVoiceDecoder.new : SteamVoiceDecoder Unit)
    ∧ InvRS (SteamVoiceDecoder.decode validApi ⟨some (), 24000, 0⟩ ⟨0, [0, 1, 0]⟩ [0, 0]).1
    ∧ (InvRS (SteamVoiceDecoder.new : SteamVoiceDecoder Unit) →
        InvRS (decodeStep validApi (SteamVoiceDecoder.new : SteamVoiceDecoder Unit)
          (.SampleRate 24000) [] 0).state)
    ∧ ∃ rate d, (Packet.SampleRate 24000) = .SampleRate rate
        ∧ (decodeStep validApi (SteamVoiceDecoder.new : SteamVoiceDecoder Unit)
            (.SampleRate 24000) [] 0).state.decoder = some d
        ∧ validApi.new rate Channels.Mono = .ok d
        ∧ (decodeStep validApi (SteamVoiceDecoder.new : SteamVoiceDecoder Unit)
            (.SampleRate 24000) [] 0).state.sample_rate = rate :=
  C5_decoder_rate_invariant validApi
    (fun ch d hc => by simp [validApi] at hc)
    ⟨some (), 24000, 0⟩ SteamVoiceDecoder.new ⟨0, [0, 1, 0]⟩ [0, 0] [] 0
    (.SampleRate 24000) (by decide) (by decide)

/- Reading back a little-endian encoded u16 yields the value and the rest. -/
theorem read_u16_u16le (n : Nat) (rest : List Nat) :
    read_u16 (u16le n ++ rest) = .ok (n, rest) := by
  have h2 : ¬ (u16le n ++ rest).length < 2 := by
    simp [u16le]
  simp only [read_u16, read_bytes, if_neg h2]
  norm_num [u16le, fromLeBytes]
  omega

/- The opus frame loop stops immediately on at most two remaining bytes. -/
theorem decodeOpusLoop_stop {D : Type} (api : OpusApi D) (d : D) (sq : Nat)
    (data : List Nat) (out : List Int) (total : Nat) (hle : data.length ≤ 2) :
    decodeOpusLoop api d sq data out total = ⟨d, sq, out, total, none⟩ := by
  rw [decodeOpusLoop.eq_def]
  rw [dif_neg (by omega)]

theorem countApi_decode (d : Nat × Nat) (inp : List Nat) (o : List Int) :
    countApi.decode d inp o = .ok ((if inp.isEmpty then (d.1 + 1, d.2) else d), o, 0) := rfl

theorem countApi_reset (d : Nat × Nat) : countApi.reset d = .ok (d.1, d.2 + 1) := rfl

/- Under the counting instrumentation, each of the `lost` PLC iterations
   performs exactly one empty-input decode and leaves buffer and total
   untouched. -/
theorem plcLoop_count (p r k : Nat) (out : List Int) (hout : out ≠ []) :
    plcLoop countApi (p, r) k out 0 = ((p + k, r), out, 0, none) := by
  induction k generalizing p with
  | zero => simp [plcLoop]
  | succ n ih =>
    have hlen : ¬ out.length ≤ 0 := by
      cases out
      · exact absurd rfl hout
      · simp
    have hrec := ih (p + 1)
    have hadd : p + 1 + n = p + (n + 1) := by omega
    rw [hadd] at hrec
    simp only [plcLoop, countApi_decode, List.isEmpty_nil, if_true, List.take_zero,
      List.drop_zero, List.nil_append, Nat.add_zero, hlen, hrec, if_false]

/- The sequence branch under the counting instrumentation: a backward jump
   performs exactly one reset and no PLC decode; otherwise exactly
   (s - sq) empty-input PLC decodes happen. -/
theorem seqBranch_count (p r sq s : Nat) (out : List Int) (hout : out ≠ []) :
    seqBranch countApi (p, r) sq s out 0 =
      ((if s < sq then (p, r + 1) else (p + (s - sq), r)), out, 0, none) := by
  unfold seqBranch
  by_cases hbr : s < sq
  · simp [hbr, countApi_reset]
  · simp [hbr, plcLoop_count p r (s - sq) out hout]

/- A single well-formed frame (exactly len payload bytes, len nonzero and not
   the sentinel): the loop performs the branch work, then sets seq to
   (s + 1) % 65536, decodes the frame and terminates cleanly. -/
theorem decodeOpusLoop_frame_ok (p r sq s len : Nat) (rest : List Nat) (out : List Int)
    (hlen : rest.length = len) (hs : len ≠ 65535) (hpos : 0 < len) (hout : out ≠ []) :
    decodeOpusLoop countApi (p, r) sq (u16le len ++ (u16le s ++ rest)) out 0 =
      ⟨(if s < sq then (p, r + 1) else (p + (s - sq), r)), (s + 1) % 65536, out, 0, none⟩ := by
  have hgt : 2 < (u16le len ++ (u16le s ++ rest)).length := by
    simp [u16le]
  have hne : rest ≠ [] := by
    intro hc
    subst hc
    simp at hlen
    omega
  have hie : rest.isEmpty = false := by
    cases rest
    · exact absurd rfl hne
    · rfl
  have htake : rest.take len = rest := by
    rw [← hlen]
    exact List.take_length rest
  have hdrop : rest.drop len = [] := by
    rw [← hlen]
    exact List.drop_length rest
  have hlt : ¬ rest.length < len := by omega
  have hlen0 : ¬ out.length ≤ 0 := by
    cases out
    · exact absurd rfl hout
    · simp
  rw [decodeOpusLoop.eq_def, dif_pos hgt]
  split
  · next e heq =>
    rw [read_u16_u16le] at heq
    exact absurd heq (by simp)
  · next len1 data1 heq =>
    rw [read_u16_u16le] at heq
    simp only [Except.ok.injEq, Prod.mk.injEq] at heq
    obtain ⟨hl1, hd1⟩ := heq
    subst hl1
    subst hd1
    rw [if_neg hs]
    split
    · next e heq2 =>
      rw [read_u16_u16le] at heq2
      exact absurd heq2 (by simp)
    · next s1 data2 heq2 =>
      rw [read_u16_u16le] at heq2
      simp only [Except.ok.injEq, Prod.mk.injEq] at heq2
      obtain ⟨hs1, hd2⟩ := heq2
      subst hs1
      subst hd2
      rw [seqBranch_count p r sq s out hout]
      simp only [hlt, if_false, htake, countApi_decode, hie, Bool.false_eq_true,
        List.take_zero, List.drop_zero, List.nil_append, Nat.add_zero, hlen0, hdrop,
        decodeOpusLoop_stop countApi _ ((s + 1) % 65536) [] out 0 (by simp)]

/- A single truncated frame (fewer than len payload bytes): the loop fails
   with InsufficientData, but only after the seq field has been updated to
   (s + 1) % 65536 — the store precedes the availability check. -/
theorem decodeOpusLoop_frame_short (p r sq s len : Nat) (rest : List Nat) (out : List Int)
    (hshort : rest.length < len) (hs : len ≠ 65535) (hout : out ≠ []) :
    decodeOpusLoop countApi (p, r) sq (u16le len ++ (u16le s ++ rest)) out 0 =
      ⟨(if s < sq then (p, r + 1) else (p + (s - sq), r)), (s + 1) % 65536, out, 0,
        some .InsufficientData⟩ := by
  have hgt : 2 < (u16le len ++ (u16le s ++ rest)).length := by
    simp [u16le]
  rw [decodeOpusLoop.eq_def, dif_pos hgt]
  split
  · next e heq =>
    rw [read_u16_u16le] at heq
    exact absurd heq (by simp)
  · next len1 data1 heq =>
    rw [read_u16_u16le] at heq
    simp only [Except.ok.injEq, Prod.mk.injEq] at heq
    obtain ⟨hl1, hd1⟩ := heq
    subst hl1
    subst hd1
    rw [if_neg hs]
    split
    · next e heq2 =>
      rw [read_u16_u16le] at heq2
      exact absurd heq2 (by simp)
    · next s1 data2 heq2 =>
      rw [read_u16_u16le] at heq2
      simp only [Except.ok.injEq, Prod.mk.injEq] at heq2
      obtain ⟨hs1, hd2⟩ := heq2
      subst hs1
      subst hd2
      rw [seqBranch_count p r sq s out hout]
      simp only [hshort, if_true]

/-- C6: in the opus frame loop (instrumented so the decoder state counts
empty-input decodes and resets), a non-sentinel frame with sequence number s:
when s is at least the driver seq, exactly (s - seq) empty-input PLC decodes
run before the frame's own decode (the Nat subtraction is exact since the
branch guarantees seq ≤ s, matching the source where the u16 subtraction
cannot underflow under the branch condition); when s < seq, the decoder is
reset exactly once and no PLC decode runs. -/
theorem C6_plc_gap_count (p r sq s len : Nat) (rest : List Nat) (out : List Int)
    (hlen : rest.length = len) (hs : len ≠ 65535) (hpos : 0 < len) (hout : out ≠ []) :
    (sq ≤ s →
      decodeOpusLoop countApi (p, r) sq (u16le len ++ (u16le s ++ rest)) out 0 =
        ⟨(p + (s - sq), r), (s + 1) % 65536, out, 0, none⟩)
    ∧ (s < sq →
      decodeOpusLoop countApi (p, r) sq (u16le len ++ (u16le s ++ rest)) out 0 =
        ⟨(p, r + 1), (s + 1) % 65536, out, 0, none⟩) := by
  constructor
  · intro hle
    rw [decodeOpusLoop_frame_ok p r sq s len rest out hlen hs hpos hout]
    rw [if_neg (by omega)]
  · intro hlt
    rw [decodeOpusLoop_frame_ok p r sq s len rest out hlen hs hpos hout]
    rw [if_pos hlt]

/-- C6 witness: a gap of 3 from seq 0 performs exactly 3 PLC decodes, and a
backward frame (seq 3 while the driver expects 5) performs exactly one reset
and no PLC decode. -/
theorem C6_plc_gap_count_witness :
    decodeOpusLoop countApi (0, 0) 0 (u16le 1 ++ (u16le 3 ++ [0])) [0] 0 =
      ⟨(0 + (3 - 0), 0), (3 + 1) % 65536, [0], 0, none⟩
    ∧ decodeOpusLoop countApi (0, 0) 5 (u16le 1 ++ (u16le 3 ++ [0])) [0] 0 =
      ⟨(0, 0 + 1), (3 + 1) % 65536, [0], 0, none⟩ :=
  ⟨(C6_plc_gap_count 0 0 0 3 1 [0] [0] (by decide) (by decide) (by decide) (by decide)).1
      (by decide),
   (C6_plc_gap_count 0 0 5 3 1 [0] [0] (by decide) (by decide) (by decide) (by decide)).2
      (by decide)⟩

/-- C7: after processing a non-sentinel frame with sequence number s, the
driver's seq field is (s + 1) % 65536 — the 16-bit store wraps, so s = 65535
makes it 0 rather than failing — and this assignment happens in every branch
of the frame body before the frame-length availability check: even when the
frame payload is truncated and the loop fails with InsufficientData, the seq
field already holds (s + 1) % 65536. -/
theorem C7_seq_assignment (p r sq s len : Nat) (rest : List Nat) (out : List Int)
    (hs : len ≠ 65535) (hout : out ≠ []) :
    (rest.length < len →
      (decodeOpusLoop countApi (p, r) sq (u16le len ++ (u16le s ++ rest)) out 0).seq =
          (s + 1) % 65536
      ∧ (decodeOpusLoop countApi (p, r) sq (u16le len ++ (u16le s ++ rest)) out 0).err =
          some .InsufficientData)
    ∧ (rest.length = len → 0 < len →
      (decodeOpusLoop countApi (p, r) sq (u16le len ++ (u16le s ++ rest)) out 0).seq =
          (s + 1) % 65536
      ∧ (decodeOpusLoop countApi (p, r) sq (u16le len ++ (u16le s ++ rest)) out 0).err =
          none) := by
  constructor
  · intro hshort
    rw [decodeOpusLoop_frame_short p r sq s len rest out hshort hs hout]
    exact ⟨rfl, rfl⟩
  · intro hlen hpos
    rw [decodeOpusLoop_frame_ok p r sq s len rest out hlen hs hpos hout]
    exact ⟨rfl, rfl⟩

/-- C7 witness: the wrap case — a truncated frame with s = 65535 leaves the
seq field at 0 (65536 % 65536) while the loop reports InsufficientData,
showing the assignment happened before the length check. -/
theorem C7_seq_assignment_witness :
    (decodeOpusLoop countApi (0, 0) 0 (u16le 1 ++ (u16le 65535 ++ [])) [0] 0).seq = 0
    ∧ (decodeOpusLoop countApi (0, 0) 0 (u16le 1 ++ (u16le 65535 ++ [])) [0] 0).err =
        some .InsufficientData := by
  have h := (C7_seq_assignment 0 0 0 65535 1 [] [0] (by decide) (by decide)).1 (by decide)
  exact ⟨h.1, h.2⟩

/- On the buffer [255] the parser fails with UnknownPacketType and the
   iterator state never advances, so pulling any number of times never
   exhausts the iterator. -/
theorem pullN_unknown (n : Nat) : pullN n [255] = some [255] := by
  induction n with
  | zero => rfl
  | succ m ih =>
    have hnext : SteamPacketIterator.next [255] =
        some (.error (.UnknownPacketType 255), [255]) := rfl
    simp [pullN, hnext, ih]

/-- C10 counterexample: on the one-byte buffer [255] (unknown sub-packet tag)
the iterator yields the same error forever — the source's Err arm does not
advance self.data — so there is no number of next() calls after which it
returns None, contradicting the claim that the sequence is finite even when
pulled past an error. -/
theorem C10_counterexample : ¬ ∃ n, pullN n [255] = none := by
  rintro ⟨n, hn⟩
  rw [pullN_unknown n] at hn
  exact Option.noConfusion hn

/- Every buffer either exhausts the iterator after finitely many pulls, or
   reaches (after finitely many pulls) a state on which next yields an error
   and leaves the state unchanged, repeating that error forever. -/
theorem iterator_terminates_or_sticks (data : List Nat) :
    (∃ n, pullN n data = none)
    ∨ (∃ n st e, pullN n data = some st
        ∧ SteamPacketIterator.next st = some (.error e, st)) := by
  by_cases hne : data.isEmpty
  · left
    refine ⟨1, ?_⟩
    have hdata : data = [] := by
      cases data
      · rfl
      · simp at hne
    subst hdata
    rfl
  · cases hp : Packet.read data with
    | error e =>
      right
      refine ⟨0, data, e, rfl, ?_⟩
      simp [SteamPacketIterator.next, hne, hp]
    | ok pr =>
      obtain ⟨p, rest⟩ := pr
      have hnext : SteamPacketIterator.next data = some (.ok p, rest) := by
        simp [SteamPacketIterator.next, hne, hp]
      rcases iterator_terminates_or_sticks rest with ⟨n, hn⟩ | ⟨n, st, e, h1, h2⟩
      · left
        refine ⟨n + 1, ?_⟩
        simp [pullN, hnext, hn]
      · right
        refine ⟨n + 1, st, e, ?_, h2⟩
        simp [pullN, hnext, h1]
termination_by data.length
decreasing_by
exact Packet.read_length hp

/-- C10 (amended): for every input buffer the iterator either returns None
after finitely many next() calls, or after finitely many calls reaches a
state on which next() yields a parse error without advancing — and then
yields that same error forever, never None.  Finiteness as claimed holds
exactly on buffers where no parse error is ever hit. -/
theorem C10_iterator_finite_or_error (data : List Nat) :
    (∃ n, pullN n data = none)
    ∨ (∃ n st e, pullN n data = some st
        ∧ SteamPacketIterator.next st = some (.error e, st)) :=
  iterator_terminates_or_sticks data
